import Mathlib

/-!
Verification of the real-time audio session manager (`LiveSessionManager`).

The development shallowly embeds the session manager's pure core:
the PCM codec (`createPcmBlob` / `decodeAudioData`, including the
browser's `btoa` / `atob` forgiving-base64 primitives they call),
the playback scheduler (`nextStartTime` cursor and pending `sources`),
the tool-call dispatch loop of `handleMessage`, the session lifecycle
(`startSession` / `stopSession` / `cleanup`), and the browser event-loop
ordering of inbound message handling.

Audio samples and clock times are modelled as rationals; 16-bit machine
integers are modelled as `Int` with explicit two's-complement byte packing.
-/

namespace Process

/-! ## Base64 (the `btoa` / `atob` builtins used by the codec) -/

/-- The standard base64 alphabet, index 0 to 63. -/
def b64Alphabet : List Char :=
  ['A','B','C','D','E','F','G','H','I','J','K','L','M',
   'N','O','P','Q','R','S','T','U','V','W','X','Y','Z',
   'a','b','c','d','e','f','g','h','i','j','k','l','m',
   'n','o','p','q','r','s','t','u','v','w','x','y','z',
   '0','1','2','3','4','5','6','7','8','9','+','/']

/-- Character for a 6-bit group. -/
def b64Char (n : Nat) : Char := b64Alphabet.getD n '?'

/-- Index of a base64 character; `none` for characters outside the alphabet. -/
def b64Index (c : Char) : Option Nat := b64Alphabet.findIdx? (fun a => a == c)

/-- The `btoa` builtin on a byte sequence: 3 bytes become 4 characters,
with `=` padding for a 1- or 2-byte tail. -/
def btoaBytes : List Nat → List Char
  | [] => []
  | [b1] => [b64Char (b1 / 4), b64Char (b1 % 4 * 16), '=', '=']
  | [b1, b2] => [b64Char (b1 / 4), b64Char (b1 % 4 * 16 + b2 / 16),
                 b64Char (b2 % 16 * 4), '=']
  | b1 :: b2 :: b3 :: rest =>
      b64Char (b1 / 4) :: b64Char (b1 % 4 * 16 + b2 / 16) ::
      b64Char (b2 % 16 * 4 + b3 / 64) :: b64Char (b3 % 64) :: btoaBytes rest

/-- ASCII whitespace removed by forgiving-base64 decode. -/
def isB64Whitespace (c : Char) : Bool :=
  c == '\t' || c == '\n' || c == '\x0c' || c == '\r' || c == ' '

/-- Remove a single trailing `=` if present. -/
def stripOneEq (l : List Char) : List Char :=
  if l.getLast? == some '=' then l.dropLast else l

/-- Reassemble bytes from 6-bit groups; a trailing group of 2 or 3
characters yields 1 or 2 bytes (leftover bits discarded), a trailing
group of 1 character is invalid. -/
def atobGroups : List Nat → Option (List Nat)
  | [] => some []
  | [_] => none
  | [c1, c2] => some [c1 * 4 + c2 / 16]
  | [c1, c2, c3] => some [c1 * 4 + c2 / 16, c2 % 16 * 16 + c3 / 4]
  | c1 :: c2 :: c3 :: c4 :: rest =>
      (atobGroups rest).map
        (fun bs => (c1 * 4 + c2 / 16) :: (c2 % 16 * 16 + c3 / 4) ::
                   (c3 % 4 * 64 + c4) :: bs)

/-- Forgiving-base64 decode after whitespace removal: strip up to two
trailing `=` when the length is a multiple of 4, reject a remainder of 1,
reject characters outside the alphabet. -/
def atobNoWs (s : List Char) : Option (List Nat) :=
  let d := if s.length % 4 == 0 then stripOneEq (stripOneEq s) else s
  if d.length % 4 == 1 then none
  else
    match d.mapM b64Index with
    | none => none
    | some idxs => atobGroups idxs

/-- The `atob` builtin (forgiving-base64 decode). -/
def atobChars (s : List Char) : Option (List Nat) :=
  atobNoWs (s.filter (fun c => !(isB64Whitespace c)))

/-! ## PCM codec (`createPcmBlob` and `decodeAudioData`) -/

/-- Clamp a sample to `[-1, 1]`, as in `Math.max(-1, Math.min(1, data[i]))`. -/
def clamp (x : ℚ) : ℚ := max (-1) (min 1 x)

/-- Truncation toward zero, the conversion a JavaScript `Int16Array`
store applies to its (in-range) operand. -/
def jsTrunc (q : ℚ) : ℤ := if q < 0 then -Rat.floor (-q) else Rat.floor q

/-- Quantization of one sample as in `createPcmBlob`:
clamp, then `s < 0 ? s * 0x8000 : s * 0x7FFF` stored into an `Int16Array`. -/
def quantizeSample (x : ℚ) : ℤ :=
  let s := clamp x
  if s < 0 then jsTrunc (s * 32768) else jsTrunc (s * 32767)

/-- Two's-complement little-endian byte pair of a 16-bit value, the
layout of `new Uint8Array(int16.buffer)` on a little-endian platform. -/
def int16ToBytesLE (z : ℤ) : List Nat :=
  let u := (z % 65536).toNat
  [u % 256, u / 256]

/-- The raw byte stream `createPcmBlob` feeds to `btoa`. -/
def pcmBytes (data : List ℚ) : List Nat :=
  (data.map (fun x => int16ToBytesLE (quantizeSample x))).flatten

/-- The wire chunk produced by `createPcmBlob`. -/
structure PcmBlob where
  data : List Char
  mimeType : String
deriving DecidableEq

/-- `createPcmBlob`: quantize every sample, pack little-endian,
base64-encode, tag with the fixed MIME type. -/
def createPcmBlob (data : List ℚ) : PcmBlob :=
  { data := btoaBytes (pcmBytes data)
    mimeType := "audio/pcm;rate=16000" }

/-- The mono `AudioBuffer` produced by `decodeAudioData`. -/
structure AudioBuffer where
  numChannels : Nat
  sampleRate : Nat
  samples : List ℚ
deriving DecidableEq

/-- Duration of a buffer in seconds (frame count over sample rate). -/
def AudioBuffer.duration (b : AudioBuffer) : ℚ :=
  (b.samples.length : ℚ) / (b.sampleRate : ℚ)

/-- Failure modes of `decodeAudioData`: `atob` throwing on malformed
base64, or the `Int16Array` constructor throwing on an odd byte length. -/
inductive DecodeError where
  | malformedBase64
  | oddByteLength
deriving DecidableEq

/-- Reinterpret a byte stream as little-endian signed 16-bit integers,
as `new Int16Array(bytes.buffer)` does. -/
def int16OfBytesLE : List Nat → List ℤ
  | b0 :: b1 :: rest =>
      (if b0 + 256 * b1 < 32768 then ((b0 + 256 * b1 : Nat) : ℤ)
       else ((b0 + 256 * b1 : Nat) : ℤ) - 65536) :: int16OfBytesLE rest
  | _ => []

/-- `decodeAudioData`: base64-decode, reinterpret as little-endian int16,
divide each sample by 32768, produce a mono buffer at 24000 Hz. -/
def decodeAudioData (b64 : List Char) : Except DecodeError AudioBuffer :=
  match atobChars b64 with
  | none => .error .malformedBase64
  | some bytes =>
      if bytes.length % 2 == 0 then
        .ok { numChannels := 1
              sampleRate := 24000
              samples := (int16OfBytesLE bytes).map
                (fun (z : ℤ) => (z : ℚ) / 32768) }
      else .error .oddByteLength

/-! ## Playback scheduler -/

/-- Scheduler state of the session manager: the `nextStartTime` cursor
and the set of pending `AudioBufferSourceNode`s (modelled by node ids,
in insertion order). -/
structure SchedState where
  nextStartTime : ℚ
  sources : List Nat
deriving DecidableEq

/-- One scheduling step from `handleMessage`:
`nextStartTime = max(nextStartTime, currentTime)`, start the source at
that time, advance the cursor by the buffer's duration, add the source
to the pending set. Returns the new state and the start time used. -/
def scheduleStep (now dur : ℚ) (srcId : Nat) (st : SchedState) :
    SchedState × ℚ :=
  let startAt := max st.nextStartTime now
  ({ nextStartTime := startAt + dur, sources := st.sources ++ [srcId] }, startAt)

/-- Run a sequence of scheduling steps; each element of `chunks` is the
clock time at which the chunk is scheduled paired with its duration.
Returns the final state and the list of start times, in order. -/
def runSchedule (st : SchedState) : List (ℚ × ℚ) → SchedState × List ℚ
  | [] => (st, [])
  | (now, dur) :: rest =>
      let p := scheduleStep now dur st.sources.length st
      let r := runSchedule p.1 rest
      (r.1, p.2 :: r.2)

/-- `stopAudioPlayback` (the interrupt handler): stop every pending
source, clear the set, reset `nextStartTime` to the output clock's
current time, or to 0 when no output context exists. Returns the new
state and the list of sources that were stopped. -/
def stopAudioPlayback (clock : Option ℚ) (st : SchedState) :
    SchedState × List Nat :=
  ({ nextStartTime := match clock with | some t => t | none => 0
     sources := [] }, st.sources)

/-- The audio branch of `handleMessage`: decode the chunk and schedule
it; a decode failure is caught and the chunk is dropped, leaving the
scheduler state untouched. -/
def handleAudioChunk (now : ℚ) (chunk : List Char) (st : SchedState) :
    SchedState :=
  match decodeAudioData chunk with
  | .error _ => st
  | .ok buf => (scheduleStep now buf.duration st.sources.length st).1

/-! ## Tool-call dispatch (`handleMessage`, function-call branch) -/

/-- A function call received from the service: `{id, name, args}`. -/
structure FunctionCall (α : Type) where
  id : String
  name : String
  args : α
deriving DecidableEq

/-- The payload of a function response: `{result}` on success,
`{error}` on a failed callback. -/
inductive ToolResponsePayload (β : Type) where
  | result (v : β)
  | failure (msg : String)
deriving DecidableEq

/-- A function response entry: `{id, name, response}`. -/
structure FunctionResponse (β : Type) where
  id : String
  name : String
  response : ToolResponsePayload β
deriving DecidableEq

/-- The dispatch loop of `handleMessage`: invoke `onToolCall(name, args)`
for each call; a successful result is wrapped as `{result}`, a thrown or
rejected callback is caught and wrapped as the constant
`{error: "Failed to execute function"}`. The batched response list is
sent back as one frame. -/
def buildToolResponses {α β ε : Type} (onToolCall : String → α → Except ε β)
    (calls : List (FunctionCall α)) : List (FunctionResponse β) :=
  calls.map (fun fc =>
    match onToolCall fc.name fc.args with
    | .ok result => { id := fc.id, name := fc.name,
                      response := .result result }
    | .error _ => { id := fc.id, name := fc.name,
                    response := .failure "Failed to execute function" })

/-! ## Session lifecycle (`startSession`, `stopSession`, `cleanup`) -/

/-- Resource events emitted while starting or stopping a session, in
program order. -/
inductive ResEvent where
  | sessionClosed (id : Nat)
  | playbackStopped
  | processorDisconnected (id : Nat)
  | sourceDisconnected (id : Nat)
  | micReleased (id : Nat)
  | inputCtxClosed (id : Nat)
  | outputCtxClosed (id : Nat)
  | inputCtxCreated (id : Nat) (rate : Nat)
  | outputCtxCreated (id : Nat) (rate : Nat)
  | micAcquired (id : Nat)
  | sessionOpened (id : Nat)
deriving DecidableEq

/-- The mutable fields of `LiveSessionManager`, with opaque runtime
handles (audio contexts, media stream, nodes, session promise) modelled
as ids drawn from the allocator `fresh`. -/
structure ManagerState where
  activeSessionPromise : Option Nat
  inputAudioContext : Option Nat
  outputAudioContext : Option Nat
  mediaStream : Option Nat
  processor : Option Nat
  source : Option Nat
  sched : SchedState
  fresh : Nat
deriving DecidableEq

/-- `cleanup`: stop playback, disconnect and forget the processor and
source nodes, stop the media stream's tracks, close both audio contexts,
forget the session promise, reset the scheduling cursor to 0. -/
def cleanup (st : ManagerState) : ManagerState × List ResEvent :=
  ({ activeSessionPromise := none
     inputAudioContext := none
     outputAudioContext := none
     mediaStream := none
     processor := none
     source := none
     sched := { nextStartTime := 0, sources := [] }
     fresh := st.fresh },
   ResEvent.playbackStopped ::
     (st.processor.toList.map ResEvent.processorDisconnected ++
      st.source.toList.map ResEvent.sourceDisconnected ++
      st.mediaStream.toList.map ResEvent.micReleased ++
      st.inputAudioContext.toList.map ResEvent.inputCtxClosed ++
      st.outputAudioContext.toList.map ResEvent.outputCtxClosed))

/-- `stopSession`: close the active session if any (close failures are
tolerated), then always run `cleanup`. -/
def stopSession (st : ManagerState) : ManagerState × List ResEvent :=
  let c := cleanup st
  match st.activeSessionPromise with
  | some sid => (c.1, ResEvent.sessionClosed sid :: c.2)
  | none => c

/-- `startSession`: stop any existing session first, create the input
(16000 Hz) and output (24000 Hz) audio contexts, acquire the microphone,
open the live connection. When microphone acquisition fails, the catch
block runs `cleanup` and rethrows. -/
def startSession (micOk : Bool) (st : ManagerState) :
    Except Unit ManagerState × List ResEvent :=
  let s := stopSession st
  let st1 := s.1
  let inId := st1.fresh
  let outId := st1.fresh + 1
  let st2 := { st1 with
    inputAudioContext := some inId
    outputAudioContext := some outId
    fresh := st1.fresh + 2 }
  let tCtx := [ResEvent.inputCtxCreated inId 16000,
               ResEvent.outputCtxCreated outId 24000]
  if micOk then
    let micId := st2.fresh
    let sid := st2.fresh + 1
    let st3 := { st2 with
      mediaStream := some micId
      activeSessionPromise := some sid
      fresh := st2.fresh + 2 }
    (.ok st3, s.2 ++ tCtx ++ [ResEvent.micAcquired micId,
                              ResEvent.sessionOpened sid])
  else
    let c := cleanup st2
    (.error (), s.2 ++ tCtx ++ c.2)

/-- Number of live microphone acquisitions after an event. -/
def micDelta (c : Nat) : ResEvent → Nat
  | ResEvent.micAcquired _ => c + 1
  | ResEvent.micReleased _ => c - 1
  | _ => c

/-- `micSafe c tr` holds when, starting from `c` live microphone
acquisitions, no prefix of the trace `tr` ever has more than one
microphone alive. -/
def micSafe : Nat → List ResEvent → Bool
  | c, [] => c ≤ 1
  | c, e :: rest => c ≤ 1 && micSafe (micDelta c e) rest

/-- Count of live microphones held by a manager state. -/
def micCount (st : ManagerState) : Nat :=
  if st.mediaStream.isSome then 1 else 0

/-- All handles held by the state are below the allocator cursor. -/
def WFState (st : ManagerState) : Prop :=
  (∀ i ∈ st.activeSessionPromise, i < st.fresh) ∧
  (∀ i ∈ st.mediaStream, i < st.fresh)

/-! ## Event-loop ordering of `handleMessage` invocations -/

/-- An inbound live-server message, reduced to what matters for
ordering: a message carrying a batch of function calls whose callback
settles after `k` further message deliveries (`k = 0`: the callback is
already settled when awaited), or a message carrying an audio chunk. -/
inductive InMsg where
  | toolCallMsg (resolveAfter : Nat)
  | audioMsg
deriving DecidableEq

/-- Observable events of the message-handling loop. -/
inductive LoopEvent where
  | handlerInvoked (i : Nat)
  | audioScheduled (i : Nat)
  | toolResponseSent (i : Nat)
deriving DecidableEq

/-- Advance the pending awaited callbacks by one delivery: decrement
every countdown, emit the responses whose callbacks have now settled
(their handler resumes on the microtask queue between macrotasks). -/
def stepPend (pend : List (Nat × Nat)) : List LoopEvent × List (Nat × Nat) :=
  let dec := pend.map (fun p => (p.1, p.2 - 1))
  ((dec.filter (fun p => p.2 == 0)).map (fun p => LoopEvent.toolResponseSent p.1),
   dec.filter (fun p => p.2 != 0))

/-- The browser event loop delivering inbound messages to
`handleMessage`. Each `onmessage` macrotask synchronously invokes the
handler; an audio chunk is decoded and scheduled on the microtask queue
before the next macrotask; a tool-call handler suspends at
`await onToolCall` and its response is sent only when the callback
settles, while later messages keep being delivered — the handler
invocations themselves are never pipelined out of order. Callbacks still
pending after the last delivery settle afterwards in registration
order. -/
def runLoop (i : Nat) (pend : List (Nat × Nat)) :
    List InMsg → List LoopEvent
  | [] => pend.map (fun p => LoopEvent.toolResponseSent p.1)
  | m :: rest =>
      let sp : List LoopEvent × List (Nat × Nat) :=
        match m with
        | InMsg.audioMsg => ([LoopEvent.audioScheduled i], pend)
        | InMsg.toolCallMsg 0 => ([LoopEvent.toolResponseSent i], pend)
        | InMsg.toolCallMsg (Nat.succ d) => ([], pend ++ [(i, Nat.succ d)])
      let r := stepPend sp.2
      LoopEvent.handlerInvoked i :: (sp.1 ++ r.1) ++ runLoop (i + 1) r.2 rest

/-- Whether every tool-call message in the list carries a callback that
is already settled when awaited. -/
def allSettled (msgs : List InMsg) : Bool :=
  msgs.all (fun m =>
    match m with
    | InMsg.toolCallMsg (Nat.succ _) => false
    | _ => true)

/-- Modelled from the spec: the fully sequential trace the spec's
ordering guarantee describes, in which each message's side effects
(response send, audio scheduling) are issued before the next message's
handler is invoked. -/
def specSequentialTrace (i : Nat) : List InMsg → List LoopEvent
  | [] => []
  | InMsg.audioMsg :: rest =>
      LoopEvent.handlerInvoked i :: LoopEvent.audioScheduled i ::
        specSequentialTrace (i + 1) rest
  | InMsg.toolCallMsg _ :: rest =>
      LoopEvent.handlerInvoked i :: LoopEvent.toolResponseSent i ::
        specSequentialTrace (i + 1) rest

/-- Position of the first occurrence of an event in a trace. -/
def eventPos (tr : List LoopEvent) (e : LoopEvent) : Option Nat :=
  tr.findIdx? (fun x => x == e)

/-- `e` occurs in `tr` strictly before `f` does. -/
def beforeIn (tr : List LoopEvent) (e f : LoopEvent) : Bool :=
  match eventPos tr e, eventPos tr f with
  | some ke, some kf => ke < kf
  | _, _ => false

/-- The indices of the messages whose handlers the loop invoked, in
trace order. -/
def invocationsOf (tr : List LoopEvent) : List Nat :=
  tr.filterMap (fun e =>
    match e with
    | LoopEvent.handlerInvoked k => some k
    | _ => none)

/-! ## Statements of contested claims, as written -/

/-- The scheduler-contiguity claim as stated: starting from a fresh
scheduler, for chunks arriving at nondecreasing nonnegative clock times
with positive durations, every buffer's start time equals the previous
buffer's start time plus the previous buffer's duration. -/
def claimBackToBackStated : Prop :=
  ∀ chunks : List (ℚ × ℚ),
    List.Chain' (fun p q => p.1 ≤ q.1) chunks →
    (∀ p ∈ chunks, 0 ≤ p.1 ∧ 0 < p.2) →
    ∀ i c c' si, chunks[i]? = some c → chunks[i + 1]? = some c' →
      (runSchedule { nextStartTime := 0, sources := [] } chunks).2[i]? = some si →
      (runSchedule { nextStartTime := 0, sources := [] } chunks).2[i + 1]? =
        some (si + c.2)

/-- The codec round-trip claim as stated: decoding an encoded in-range
sample sequence reproduces each sample within 1/32768. -/
def claimRoundTripStated : Prop :=
  ∀ xs : List ℚ, (∀ x ∈ xs, -1 ≤ x ∧ x ≤ 1) →
    ∃ buf, decodeAudioData (createPcmBlob xs).data = .ok buf ∧
      buf.samples.length = xs.length ∧
      ∀ (i : Nat) (x s : ℚ), xs[i]? = some x → buf.samples[i]? = some s →
        |s - x| ≤ 1 / 32768

/-- The ordering claim as stated: for every batch of inbound messages,
the response frame of a tool-call message is sent before the next
queued inbound message is processed. -/
def claimRespondBeforeNextStated : Prop :=
  ∀ (msgs : List InMsg) (i k : Nat), msgs[i]? = some (InMsg.toolCallMsg k) →
    i + 1 < msgs.length →
    beforeIn (runLoop 0 [] msgs) (LoopEvent.toolResponseSent i)
      (LoopEvent.handlerInvoked (i + 1)) = true

/-- The wire-format claim as stated: audio received from the service is
at 16000 Hz and audio sent to the service is at 24000 Hz. -/
def claimWireFormatStated : Prop :=
  (∀ chunk buf, decodeAudioData chunk = .ok buf → buf.sampleRate = 16000) ∧
  (∀ xs, (createPcmBlob xs).mimeType = "audio/pcm;rate=24000")

/-! ## Proof-helper definitions -/

/-- The unpadded 6-bit groups of a byte sequence; `btoaBytes` is this
followed by the alphabet mapping and `=` padding. -/
def b64EncCore : List Nat → List Nat
  | [] => []
  | [b1] => [b1 / 4, b1 % 4 * 16]
  | [b1, b2] => [b1 / 4, b1 % 4 * 16 + b2 / 16, b2 % 16 * 4]
  | b1 :: b2 :: b3 :: rest =>
      (b1 / 4) :: (b1 % 4 * 16 + b2 / 16) :: (b2 % 16 * 4 + b3 / 64) ::
      (b3 % 64) :: b64EncCore rest


theorem b64Char_mem_or_default (n : Nat) :
    b64Char n ∈ b64Alphabet ∨ b64Char n = '?' := by
  by_cases h : n < b64Alphabet.length
  · left
    rw [b64Char, List.getD_eq_getElem?_getD, List.getElem?_eq_getElem h]
    exact List.getElem_mem h
  · right
    rw [b64Char, List.getD_eq_getElem?_getD, List.getElem?_eq_none (by omega)]
    rfl

theorem b64Char_not_ws (n : Nat) : isB64Whitespace (b64Char n) = false := by
  rcases b64Char_mem_or_default n with h | h
  · exact (by decide : ∀ c ∈ b64Alphabet, isB64Whitespace c = false) _ h
  · rw [h]
    rfl

theorem b64Char_ne_eq (n : Nat) : (b64Char n == '=') = false := by
  rcases b64Char_mem_or_default n with h | h
  · exact (by decide : ∀ c ∈ b64Alphabet, (c == '=') = false) _ h
  · rw [h]
    rfl

theorem b64Index_b64Char (n : Nat) (h : n < 64) :
    b64Index (b64Char n) = some n := by
  interval_cases n <;> rfl

theorem eqChar_not_ws : isB64Whitespace '=' = false := by decide

theorem btoaBytes_filter_ws (bs : List Nat) :
    (btoaBytes bs).filter (fun c => !(isB64Whitespace c)) = btoaBytes bs := by
  induction bs using btoaBytes.induct with
  | case1 => rfl
  | case2 b1 => simp [btoaBytes, List.filter, b64Char_not_ws, eqChar_not_ws]
  | case3 b1 b2 => simp [btoaBytes, List.filter, b64Char_not_ws, eqChar_not_ws]
  | case4 b1 b2 b3 rest ih =>
      simp [btoaBytes, List.filter, b64Char_not_ws, eqChar_not_ws, ih]

theorem btoaBytes_length_mod4 (bs : List Nat) :
    (btoaBytes bs).length % 4 = 0 := by
  induction bs using btoaBytes.induct with
  | case1 => rfl
  | case2 b1 => simp [btoaBytes]
  | case3 b1 b2 => simp [btoaBytes]
  | case4 b1 b2 b3 rest ih =>
      simp only [btoaBytes, List.length_cons]
      omega

theorem dropLast_append_right {α : Type} (s : List α) {t : List α}
    (h : t ≠ []) : (s ++ t).dropLast = s ++ t.dropLast := by
  induction s with
  | nil => rfl
  | cons a s ih =>
      cases hst : s ++ t with
      | nil => exact absurd (List.append_eq_nil.mp hst).2 h
      | cons b u =>
          rw [List.cons_append, hst, List.dropLast_cons₂, ← hst, ih,
            List.cons_append]

theorem some_beq_some {α : Type} [BEq α] (a b : α) :
    ((some a : Option α) == some b) = (a == b) := rfl

theorem stripOneEq_last_ne {l : List Char} {c : Char}
    (h : l.getLast? = some c) (hc : (c == '=') = false) :
    stripOneEq l = l := by
  unfold stripOneEq
  rw [h, some_beq_some, hc]
  simp

theorem stripOneEq_append (s : List Char) {t : List Char} (h : t ≠ []) :
    stripOneEq (s ++ t) = s ++ stripOneEq t := by
  unfold stripOneEq
  rw [List.getLast?_append_of_ne_nil s h]
  by_cases he : t.getLast? == some '='
  · rw [if_pos he, if_pos he, dropLast_append_right s h]
  · rw [if_neg he, if_neg he]

theorem btoaBytes_ne_nil {bs : List Nat} (h : bs ≠ []) :
    btoaBytes bs ≠ [] := by
  cases bs with
  | nil => exact absurd rfl h
  | cons b1 rest =>
      cases rest with
      | nil => simp [btoaBytes]
      | cons b2 rest2 =>
          cases rest2 <;> simp [btoaBytes]

theorem stripOneEq_stripOneEq_btoaBytes (bs : List Nat) :
    stripOneEq (stripOneEq (btoaBytes bs)) = (b64EncCore bs).map b64Char := by
  induction bs using btoaBytes.induct with
  | case1 => rfl
  | case2 b1 =>
      show stripOneEq (stripOneEq
        [b64Char (b1 / 4), b64Char (b1 % 4 * 16), '=', '=']) = _
      rw [show ([b64Char (b1 / 4), b64Char (b1 % 4 * 16), '=', '='] : List Char)
          = [b64Char (b1 / 4), b64Char (b1 % 4 * 16), '='] ++ ['='] by rfl]
      rw [stripOneEq_append _ (by simp), show stripOneEq ['='] = [] by rfl,
        List.append_nil]
      rw [show ([b64Char (b1 / 4), b64Char (b1 % 4 * 16), '='] : List Char)
          = [b64Char (b1 / 4), b64Char (b1 % 4 * 16)] ++ ['='] by rfl]
      rw [stripOneEq_append _ (by simp), show stripOneEq ['='] = [] by rfl,
        List.append_nil]
      rfl
  | case3 b1 b2 =>
      show stripOneEq (stripOneEq [b64Char (b1 / 4),
        b64Char (b1 % 4 * 16 + b2 / 16), b64Char (b2 % 16 * 4), '=']) = _
      rw [show ([b64Char (b1 / 4), b64Char (b1 % 4 * 16 + b2 / 16),
            b64Char (b2 % 16 * 4), '='] : List Char)
          = [b64Char (b1 / 4), b64Char (b1 % 4 * 16 + b2 / 16),
             b64Char (b2 % 16 * 4)] ++ ['='] by rfl]
      rw [stripOneEq_append _ (by simp), show stripOneEq ['='] = [] by rfl,
        List.append_nil]
      rw [stripOneEq_last_ne (by rfl) (b64Char_ne_eq (b2 % 16 * 4))]
      rfl
  | case4 b1 b2 b3 rest ih =>
      cases hr : rest with
      | nil =>
          subst hr
          show stripOneEq (stripOneEq [b64Char (b1 / 4),
            b64Char (b1 % 4 * 16 + b2 / 16), b64Char (b2 % 16 * 4 + b3 / 64),
            b64Char (b3 % 64)]) = _
          rw [stripOneEq_last_ne (l := [b64Char (b1 / 4),
              b64Char (b1 % 4 * 16 + b2 / 16), b64Char (b2 % 16 * 4 + b3 / 64),
              b64Char (b3 % 64)]) (by rfl) (b64Char_ne_eq (b3 % 64)),
            stripOneEq_last_ne (by rfl) (b64Char_ne_eq (b3 % 64))]
          rfl
      | cons r0 rtail =>
          subst hr
          have hne : btoaBytes (r0 :: rtail) ≠ [] :=
            btoaBytes_ne_nil (by simp)
          show stripOneEq (stripOneEq
            ([b64Char (b1 / 4), b64Char (b1 % 4 * 16 + b2 / 16),
              b64Char (b2 % 16 * 4 + b3 / 64), b64Char (b3 % 64)] ++
              btoaBytes (r0 :: rtail))) = _
          have hne2 : stripOneEq (btoaBytes (r0 :: rtail)) ≠ [] := by
            intro hz
            have hlen := btoaBytes_length_mod4 (r0 :: rtail)
            unfold stripOneEq at hz
            by_cases he : (btoaBytes (r0 :: rtail)).getLast? == some '='
            · rw [if_pos he] at hz
              have := congrArg List.length hz
              rw [List.length_dropLast] at this
              simp at this
              have hlen2 : (btoaBytes (r0 :: rtail)).length ≠ 0 := by
                intro h0
                exact hne (List.length_eq_zero.mp h0)
              omega
            · rw [if_neg he] at hz
              exact hne hz
          rw [stripOneEq_append _ hne, stripOneEq_append _ hne2, ih]
          rfl

theorem b64EncCore_bound {bs : List Nat} (h : ∀ b ∈ bs, b < 256) :
    ∀ i ∈ b64EncCore bs, i < 64 := by
  induction bs using b64EncCore.induct with
  | case1 => intro i hi; simp [b64EncCore] at hi
  | case2 b1 =>
      intro i hi
      have hb1 : b1 < 256 := h b1 (by simp)
      simp [b64EncCore] at hi
      rcases hi with hi | hi <;> omega
  | case3 b1 b2 =>
      intro i hi
      have hb1 : b1 < 256 := h b1 (by simp)
      have hb2 : b2 < 256 := h b2 (by simp)
      simp [b64EncCore] at hi
      rcases hi with hi | hi | hi <;> omega
  | case4 b1 b2 b3 rest ih =>
      intro i hi
      have hb1 : b1 < 256 := h b1 (by simp)
      have hb2 : b2 < 256 := h b2 (by simp)
      have hb3 : b3 < 256 := h b3 (by simp)
      simp only [b64EncCore, List.mem_cons] at hi
      rcases hi with hi | hi | hi | hi | hi
      · omega
      · omega
      · omega
      · omega
      · exact ih (fun b hb => h b (by simp [hb])) i hi

theorem b64EncCore_len_mod4 (bs : List Nat) :
    (b64EncCore bs).length % 4 ≠ 1 := by
  induction bs using b64EncCore.induct with
  | case1 => simp [b64EncCore]
  | case2 b1 => simp [b64EncCore]
  | case3 b1 b2 => simp [b64EncCore]
  | case4 b1 b2 b3 rest ih =>
      simp only [b64EncCore, List.length_cons]
      omega

theorem mapM_b64Index_map_b64Char {l : List Nat} (h : ∀ i ∈ l, i < 64) :
    (l.map b64Char).mapM b64Index = some l := by
  induction l with
  | nil => rfl
  | cons a l ih =>
      rw [List.map_cons, List.mapM_cons, b64Index_b64Char a (h a (by simp)),
        ih (fun i hi => h i (by simp [hi]))]
      rfl

theorem atobGroups_b64EncCore {bs : List Nat} (h : ∀ b ∈ bs, b < 256) :
    atobGroups (b64EncCore bs) = some bs := by
  induction bs using b64EncCore.induct with
  | case1 => rfl
  | case2 b1 =>
      show atobGroups [b1 / 4, b1 % 4 * 16] = some [b1]
      simp only [atobGroups, Option.some.injEq, List.cons.injEq, and_true]
      omega
  | case3 b1 b2 =>
      have hb2 : b2 < 256 := h b2 (by simp)
      show atobGroups [b1 / 4, b1 % 4 * 16 + b2 / 16, b2 % 16 * 4]
        = some [b1, b2]
      simp only [atobGroups, Option.some.injEq, List.cons.injEq, and_true]
      constructor <;> omega
  | case4 b1 b2 b3 rest ih =>
      have hb2 : b2 < 256 := h b2 (by simp)
      have hb3 : b3 < 256 := h b3 (by simp)
      show atobGroups ((b1 / 4) :: (b1 % 4 * 16 + b2 / 16) ::
        (b2 % 16 * 4 + b3 / 64) :: (b3 % 64) :: b64EncCore rest)
        = some (b1 :: b2 :: b3 :: rest)
      rw [show atobGroups ((b1 / 4) :: (b1 % 4 * 16 + b2 / 16) ::
          (b2 % 16 * 4 + b3 / 64) :: (b3 % 64) :: b64EncCore rest)
        = (atobGroups (b64EncCore rest)).map
            (fun bs => (b1 / 4 * 4 + (b1 % 4 * 16 + b2 / 16) / 16) ::
              ((b1 % 4 * 16 + b2 / 16) % 16 * 16 + (b2 % 16 * 4 + b3 / 64) / 4) ::
              ((b2 % 16 * 4 + b3 / 64) % 4 * 64 + b3 % 64) :: bs) from rfl]
      rw [ih (fun b hb => h b (by simp [hb]))]
      have e1 : b1 / 4 * 4 + (b1 % 4 * 16 + b2 / 16) / 16 = b1 := by omega
      have e2 : (b1 % 4 * 16 + b2 / 16) % 16 * 16 + (b2 % 16 * 4 + b3 / 64) / 4
          = b2 := by omega
      have e3 : (b2 % 16 * 4 + b3 / 64) % 4 * 64 + b3 % 64 = b3 := by omega
      simp [e1, e2, e3]

theorem atob_btoa {bs : List Nat} (h : ∀ b ∈ bs, b < 256) :
    atobChars (btoaBytes bs) = some bs := by
  unfold atobChars atobNoWs
  rw [btoaBytes_filter_ws]
  rw [show ((btoaBytes bs).length % 4 == 0) = true by
    rw [btoaBytes_length_mod4 bs]; rfl]
  simp only [if_true]
  rw [stripOneEq_stripOneEq_btoaBytes]
  rw [show (((b64EncCore bs).map b64Char).length % 4 == 1) = false by
    rw [List.length_map]
    exact beq_eq_false_iff_ne.mpr (b64EncCore_len_mod4 bs)]
  simp only [Bool.false_eq_true, if_false]
  rw [mapM_b64Index_map_b64Char (b64EncCore_bound h)]
  exact atobGroups_b64EncCore h

theorem ratFloor_eq_floor (q : ℚ) : Rat.floor q = ⌊q⌋ :=
  (Rat.floor_def' q).trans Rat.floor_def.symm

theorem jsTrunc_eq (q : ℚ) : jsTrunc q = if q < 0 then ⌈q⌉ else ⌊q⌋ := by
  unfold jsTrunc
  rw [ratFloor_eq_floor, ratFloor_eq_floor, Int.floor_neg, neg_neg]

theorem clamp_mem_Icc (x : ℚ) : -1 ≤ clamp x ∧ clamp x ≤ 1 := by
  unfold clamp
  constructor
  · exact le_max_left _ _
  · exact max_le (by norm_num) (min_le_left _ _)

theorem clamp_of_mem {x : ℚ} (h1 : -1 ≤ x) (h2 : x ≤ 1) : clamp x = x := by
  unfold clamp
  rw [min_eq_right h2, max_eq_right h1]

theorem quantizeSample_bounds (x : ℚ) :
    -32768 ≤ quantizeSample x ∧ quantizeSample x ≤ 32767 := by
  unfold quantizeSample
  obtain ⟨hlo, hhi⟩ := clamp_mem_Icc x
  set s := clamp x with hs
  by_cases hneg : s < 0
  · rw [if_pos hneg, jsTrunc_eq,
      if_pos (by nlinarith : s * 32768 < 0)]
    constructor
    · calc (-32768 : ℤ) = ⌈(-32768 : ℚ)⌉ := by
            rw [show ((-32768 : ℚ)) = ((-32768 : ℤ) : ℚ) by norm_num, Int.ceil_intCast]
          _ ≤ ⌈s * 32768⌉ := Int.ceil_le_ceil (by nlinarith)
    · have : ⌈s * 32768⌉ ≤ 0 := Int.ceil_le.mpr (by push_cast; nlinarith)
      omega
  · rw [if_neg hneg, jsTrunc_eq,
      if_neg (by push_neg at hneg ⊢; nlinarith)]
    push_neg at hneg
    constructor
    · have : (0 : ℤ) ≤ ⌊s * 32767⌋ := Int.floor_nonneg.mpr (by nlinarith)
      omega
    · calc ⌊s * 32767⌋ ≤ ⌊(32767 : ℚ)⌋ := Int.floor_le_floor (by nlinarith)
          _ = 32767 := by
            rw [show ((32767 : ℚ)) = ((32767 : ℤ) : ℚ) by norm_num, Int.floor_intCast]

theorem quantizeSample_error {x : ℚ} (h1 : -1 ≤ x) (h2 : x ≤ 1) :
    |((quantizeSample x : ℤ) : ℚ) / 32768 - x| ≤ 2 / 32768 := by
  unfold quantizeSample
  rw [clamp_of_mem h1 h2]
  by_cases hneg : x < 0
  · rw [if_pos hneg, jsTrunc_eq, if_pos (by nlinarith : x * 32768 < 0)]
    have hle : x * 32768 ≤ (⌈x * 32768⌉ : ℚ) := Int.le_ceil _
    have hlt : (⌈x * 32768⌉ : ℚ) < x * 32768 + 1 := Int.ceil_lt_add_one _
    rw [abs_of_nonneg (by nlinarith)]
    nlinarith
  · push_neg at hneg
    rw [if_neg (by push_neg; nlinarith), jsTrunc_eq,
      if_neg (by push_neg; nlinarith)]
    have hle : (⌊x * 32767⌋ : ℚ) ≤ x * 32767 := Int.floor_le _
    have hlt : x * 32767 - 1 < (⌊x * 32767⌋ : ℚ) := Int.sub_one_lt_floor _
    rw [abs_of_nonpos (by nlinarith)]
    nlinarith

theorem int16ToBytesLE_bound (z : ℤ) : ∀ b ∈ int16ToBytesLE z, b < 256 := by
  intro b hb
  have h0 : 0 ≤ z % 65536 := Int.emod_nonneg z (by norm_num)
  have h1 : z % 65536 < 65536 := Int.emod_lt_of_pos z (by norm_num)
  have h2 : (z % 65536).toNat < 65536 := by omega
  simp [int16ToBytesLE] at hb
  rcases hb with hb | hb <;> omega

theorem pcmBytes_bound (xs : List ℚ) : ∀ b ∈ pcmBytes xs, b < 256 := by
  intro b hb
  unfold pcmBytes at hb
  rw [List.mem_flatten] at hb
  obtain ⟨l, hl, hbl⟩ := hb
  rw [List.mem_map] at hl
  obtain ⟨x, _, hx⟩ := hl
  exact int16ToBytesLE_bound _ b (hx ▸ hbl)

theorem pcmBytes_length (xs : List ℚ) : (pcmBytes xs).length = 2 * xs.length := by
  induction xs with
  | nil => rfl
  | cons x xs ih =>
      show (int16ToBytesLE (quantizeSample x) ++ pcmBytes xs).length
        = 2 * (x :: xs).length
      rw [List.length_append, ih,
        show (int16ToBytesLE (quantizeSample x)).length = 2 from rfl,
        List.length_cons]
      ring

theorem int16OfBytesLE_cons {z : ℤ} (h1 : -32768 ≤ z) (h2 : z ≤ 32767)
    (rest : List Nat) :
    int16OfBytesLE (int16ToBytesLE z ++ rest) = z :: int16OfBytesLE rest := by
  have h0 : 0 ≤ z % 65536 := Int.emod_nonneg z (by norm_num)
  have hlt : z % 65536 < 65536 := Int.emod_lt_of_pos z (by norm_num)
  have htn : ((z % 65536).toNat : ℤ) = z % 65536 := Int.toNat_of_nonneg h0
  have hz : z % 65536 = if 0 ≤ z then z else z + 65536 := by
    split <;> omega
  unfold int16ToBytesLE
  set u := (z % 65536).toNat with hu
  have huval : u % 256 + 256 * (u / 256) = u := by omega
  show (if u % 256 + 256 * (u / 256) < 32768
      then ((u % 256 + 256 * (u / 256) : Nat) : ℤ)
      else ((u % 256 + 256 * (u / 256) : Nat) : ℤ) - 65536) ::
      int16OfBytesLE rest = z :: int16OfBytesLE rest
  rw [huval]
  congr 1
  split
  · next hlt2 => omega
  · next hge => omega

theorem int16OfBytesLE_pcmBytes (xs : List ℚ) :
    int16OfBytesLE (pcmBytes xs) = xs.map quantizeSample := by
  induction xs with
  | nil => rfl
  | cons x xs ih =>
      show int16OfBytesLE
        (int16ToBytesLE (quantizeSample x) ++ pcmBytes xs) = _
      rw [int16OfBytesLE_cons (quantizeSample_bounds x).1
        (quantizeSample_bounds x).2, ih]
      rfl

theorem decode_encode (xs : List ℚ) :
    decodeAudioData (createPcmBlob xs).data =
      .ok { numChannels := 1, sampleRate := 24000,
            samples := xs.map
              (fun x => ((quantizeSample x : ℤ) : ℚ) / 32768) } := by
  show decodeAudioData (btoaBytes (pcmBytes xs)) = _
  simp only [decodeAudioData, atob_btoa (pcmBytes_bound xs)]
  rw [show ((pcmBytes xs).length % 2 == 0) = true by
    rw [pcmBytes_length]; simp [Nat.mul_mod_right]]
  simp only [if_true, Except.ok.injEq]
  rw [int16OfBytesLE_pcmBytes, List.map_map]
  rfl

theorem quantize_top_sample : quantizeSample (65535 / 65536 : ℚ) = 32766 := by
  unfold quantizeSample
  rw [clamp_of_mem (by norm_num) (by norm_num)]
  rw [if_neg (by norm_num), jsTrunc_eq, if_neg (by norm_num)]
  rw [show (65535 / 65536 : ℚ) * 32767 = 2147385345 / 65536 by norm_num]
  rw [show (32766 : ℤ) = ((32766 : ℤ)) from rfl]
  apply Int.floor_eq_iff.mpr
  constructor <;> norm_num

/-- Claim C1: for every inbound batch of N function-call requests the
dispatch loop produces exactly N response entries, the i-th preserving
the i-th request's id and name whether its callback succeeds or fails,
and a throwing or rejecting callback yields an error-shaped entry rather
than a missing one. -/
theorem toolCall_batch_responses {α β ε : Type}
    (onToolCall : String → α → Except ε β) (calls : List (FunctionCall α)) :
    (buildToolResponses onToolCall calls).length = calls.length ∧
    (∀ i : Nat, ((buildToolResponses onToolCall calls)[i]?).map FunctionResponse.id
        = (calls[i]?).map FunctionCall.id) ∧
    (∀ i : Nat, ((buildToolResponses onToolCall calls)[i]?).map FunctionResponse.name
        = (calls[i]?).map FunctionCall.name) ∧
    (∀ (i : Nat) (fc : FunctionCall α) (e : ε), calls[i]? = some fc →
      onToolCall fc.name fc.args = .error e →
      (buildToolResponses onToolCall calls)[i]? =
        some { id := fc.id, name := fc.name,
               response := .failure "Failed to execute function" }) := by
  refine ⟨by simp [buildToolResponses], ?_, ?_, ?_⟩
  · intro i
    simp only [buildToolResponses, List.getElem?_map]
    cases h : calls[i]? with
    | none => rfl
    | some fc => cases h2 : onToolCall fc.name fc.args <;> simp [h2]
  · intro i
    simp only [buildToolResponses, List.getElem?_map]
    cases h : calls[i]? with
    | none => rfl
    | some fc => cases h2 : onToolCall fc.name fc.args <;> simp [h2]
  · intro i fc e h he
    simp [buildToolResponses, List.getElem?_map, h, he]

/-- Witness for C1 at a concrete one-call batch with a failing callback. -/
theorem toolCall_batch_responses_witness :
    ([⟨"7", "generate_image", ()⟩] : List (FunctionCall Unit))[0]? =
      some ⟨"7", "generate_image", ()⟩ ∧
    (fun (_ : String) (_ : Unit) => (Except.error "boom" : Except String Unit))
        "generate_image" () = .error "boom" ∧
    (buildToolResponses
        (fun (_ : String) (_ : Unit) => (Except.error "boom" : Except String Unit))
        [⟨"7", "generate_image", ()⟩])[0]? =
      some ⟨"7", "generate_image", .failure "Failed to execute function"⟩ := by
  refine ⟨rfl, rfl, ?_⟩
  exact (toolCall_batch_responses
    (fun _ _ => (Except.error "boom" : Except String Unit))
    [⟨"7", "generate_image", ()⟩]).2.2.2 0 ⟨"7", "generate_image", ()⟩ "boom" rfl rfl

/-- Claim C10: when every callback in a batch throws or rejects, the
response entries carry the constant error string
"Failed to execute function"; two callbacks failing with unrelated error
values (even of different types) produce identical response frames, so
the callback's own error value never reaches the wire. -/
theorem toolError_payload_constant {α β ε ε' : Type}
    (cb : String → α → Except ε β) (cb' : String → α → Except ε' β)
    (calls : List (FunctionCall α))
    (h : ∀ fc ∈ calls, ∃ e, cb fc.name fc.args = .error e)
    (h' : ∀ fc ∈ calls, ∃ e, cb' fc.name fc.args = .error e) :
    buildToolResponses cb calls =
      calls.map (fun fc => { id := fc.id, name := fc.name,
                             response := .failure "Failed to execute function" }) ∧
    buildToolResponses cb calls = buildToolResponses cb' calls := by
  have key : ∀ {γ : Type} (g : String → α → Except γ β),
      (∀ fc ∈ calls, ∃ e, g fc.name fc.args = .error e) →
      buildToolResponses g calls =
        calls.map (fun fc => { id := fc.id, name := fc.name,
                               response := .failure "Failed to execute function" }) := by
    intro γ g hg
    unfold buildToolResponses
    refine List.map_congr_left ?_
    intro fc hfc
    obtain ⟨e, he⟩ := hg fc hfc
    simp [he]
  exact ⟨key cb h, (key cb h).trans (key cb' h').symm⟩

/-- Witness for C10: a numeric error 42 and a string error produce the
same constant-error response frame. -/
theorem toolError_payload_constant_witness :
    (∀ fc ∈ ([⟨"3", "add_item", 0⟩] : List (FunctionCall Nat)),
      ∃ e, (fun (_ : String) (_ : Nat) => (Except.error 42 : Except Nat Unit))
        fc.name fc.args = .error e) ∧
    buildToolResponses
        (fun (_ : String) (_ : Nat) => (Except.error 42 : Except Nat Unit))
        [⟨"3", "add_item", 0⟩] =
      buildToolResponses
        (fun (_ : String) (_ : Nat) => (Except.error "oops" : Except String Unit))
        [⟨"3", "add_item", 0⟩] := by
  refine ⟨fun fc _ => ⟨42, rfl⟩, ?_⟩
  exact (toolError_payload_constant
    (fun _ _ => (Except.error 42 : Except Nat Unit))
    (fun _ _ => (Except.error "oops" : Except String Unit))
    [⟨"3", "add_item", 0⟩]
    (fun fc _ => ⟨42, rfl⟩) (fun fc _ => ⟨"oops", rfl⟩)).2

/-- Claim C3: `stopAudioPlayback` (interrupt) stops exactly the pending
sources, clears the pending set, resets `nextStartTime` to the output
clock's current time (or 0 without a clock), and is idempotent: a second
call returns the same state and stops nothing, which also covers the
empty-pending case. -/
theorem interrupt_resets_and_idempotent (clock : Option ℚ) (st : SchedState) :
    (stopAudioPlayback clock st).2 = st.sources ∧
    (stopAudioPlayback clock st).1.sources = [] ∧
    (stopAudioPlayback clock st).1.nextStartTime =
      (match clock with | some t => t | none => 0) ∧
    stopAudioPlayback clock (stopAudioPlayback clock st).1 =
      ((stopAudioPlayback clock st).1, []) := by
  refine ⟨rfl, rfl, rfl, rfl⟩

theorem runSchedule_length (st : SchedState) (chunks : List (ℚ × ℚ)) :
    ((runSchedule st chunks).2).length = chunks.length := by
  induction chunks generalizing st with
  | nil => rfl
  | cons c rest ih =>
      obtain ⟨n, d⟩ := c
      simp [runSchedule, ih]

theorem runSchedule_head (st : SchedState) (c : ℚ × ℚ)
    (chunks : List (ℚ × ℚ)) (h : chunks[0]? = some c) :
    (runSchedule st chunks).2[0]? = some (max st.nextStartTime c.1) := by
  cases chunks with
  | nil => simp at h
  | cons c0 rest =>
      obtain ⟨n, d⟩ := c0
      simp at h
      subst h
      simp [runSchedule, scheduleStep]

theorem runSchedule_step (chunks : List (ℚ × ℚ)) (st : SchedState)
    (i : Nat) (c c' : ℚ × ℚ) (si : ℚ)
    (h : chunks[i]? = some c) (h' : chunks[i + 1]? = some c')
    (hs : (runSchedule st chunks).2[i]? = some si) :
    (runSchedule st chunks).2[i + 1]? = some (max (si + c.2) c'.1) := by
  induction chunks generalizing st i with
  | nil => simp at h
  | cons c0 rest ih =>
      obtain ⟨n, d⟩ := c0
      cases i with
      | zero =>
          simp at h
          subst h
          simp only [runSchedule, scheduleStep] at hs ⊢
          simp at hs
          simp only [List.getElem?_cons_succ, List.getElem?_cons_zero] at h' ⊢
          subst hs
          exact runSchedule_head _ c' rest h'
      | succ j =>
          simp only [List.getElem?_cons_succ] at h h'
          simp only [runSchedule] at hs ⊢
          simp only [List.getElem?_cons_succ] at hs ⊢
          exact ih _ j h h' hs

/-- Claim C2 (amended): each buffer's start time equals
max(nextStartTime, clock time at scheduling), the cursor advances by
exactly the buffer's duration (so start_0 = max(cursor_0, now_0) and
start_(i+1) = max(start_i + dur_i, now_(i+1))), the first start time is
at least the clock time of the first schedule call, buffers never
overlap, and consecutive buffers are gapless whenever a chunk arrives
no later than the end of the previous one; a chunk arriving after the
previous buffer ended starts at the later clock time, leaving a gap. -/
theorem schedule_contiguity_amended (st0 : SchedState)
    (chunks : List (ℚ × ℚ)) :
    ((runSchedule st0 chunks).2).length = chunks.length ∧
    (∀ c : ℚ × ℚ, chunks[0]? = some c →
      (runSchedule st0 chunks).2[0]? = some (max st0.nextStartTime c.1)) ∧
    (∀ (c : ℚ × ℚ) (s0 : ℚ), chunks[0]? = some c →
      (runSchedule st0 chunks).2[0]? = some s0 → c.1 ≤ s0) ∧
    (∀ (i : Nat) (c c' : ℚ × ℚ) (si : ℚ),
      chunks[i]? = some c → chunks[i + 1]? = some c' →
      (runSchedule st0 chunks).2[i]? = some si →
      (runSchedule st0 chunks).2[i + 1]? = some (max (si + c.2) c'.1)) ∧
    (∀ (i : Nat) (c c' : ℚ × ℚ) (si si' : ℚ),
      chunks[i]? = some c → chunks[i + 1]? = some c' →
      (runSchedule st0 chunks).2[i]? = some si →
      (runSchedule st0 chunks).2[i + 1]? = some si' →
      si + c.2 ≤ si' ∧ (c'.1 ≤ si + c.2 → si' = si + c.2)) := by
  refine ⟨runSchedule_length st0 chunks, fun c h => runSchedule_head st0 c chunks h,
    ?_, fun i c c' si h h' hs => runSchedule_step chunks st0 i c c' si h h' hs, ?_⟩
  · intro c s0 h hs
    rw [runSchedule_head st0 c chunks h] at hs
    injection hs with hs
    rw [← hs]
    exact le_max_right _ _
  · intro i c c' si si' h h' hs hs'
    rw [runSchedule_step chunks st0 i c c' si h h' hs] at hs'
    injection hs' with hs'
    subst hs'
    exact ⟨le_max_left _ _, fun hle => max_eq_left hle⟩

/-- Witness for the amended C2 on a concrete two-chunk run. -/
theorem schedule_contiguity_amended_witness :
    (([((0 : ℚ), (1 : ℚ)), ((1 : ℚ), (2 : ℚ))] : List (ℚ × ℚ))[0]? =
      some ((0 : ℚ), (1 : ℚ))) ∧
    (runSchedule { nextStartTime := 0, sources := [] }
      [((0 : ℚ), (1 : ℚ)), ((1 : ℚ), (2 : ℚ))]).2[0]? =
      some (max (0 : ℚ) (0 : ℚ)) := by
  exact ⟨rfl, (schedule_contiguity_amended { nextStartTime := 0, sources := [] }
    [((0 : ℚ), (1 : ℚ)), ((1 : ℚ), (2 : ℚ))]).2.1 ((0 : ℚ), (1 : ℚ)) rfl⟩

/-- Counterexample to C2 as stated: chunks of duration 1 scheduled at
clock times 0 and 5 on a fresh scheduler start at 0 and 5, so the second
start is not the first start plus the first duration. -/
theorem schedule_gapless_counterexample : ¬ claimBackToBackStated := by
  intro h
  have heval : (runSchedule { nextStartTime := 0, sources := [] }
      [((0 : ℚ), (1 : ℚ)), ((5 : ℚ), (1 : ℚ))]).2 = [0, 5] := by
    simp [runSchedule, scheduleStep]
  have h2 := h [((0 : ℚ), (1 : ℚ)), ((5 : ℚ), (1 : ℚ))]
    (by constructor <;> norm_num)
    (by intro p hp
        simp at hp
        rcases hp with h1 | h1 <;> rw [h1] <;> norm_num)
    0 ((0 : ℚ), (1 : ℚ)) ((5 : ℚ), (1 : ℚ)) 0 rfl rfl (by rw [heval]; rfl)
  rw [heval] at h2
  simp at h2

/-- Claim C4 (amended): for samples in [-1, 1], decode(encode(x))
succeeds, preserves length, and reproduces each sample within 2/32768
(the bound 1/32768 holds for negative samples, but a nonnegative sample
is quantized by flooring x*32767 yet decoded as q/32768, adding up to
x/32768 of further error). -/
theorem codec_roundtrip_amended (xs : List ℚ)
    (h : ∀ x ∈ xs, -1 ≤ x ∧ x ≤ 1) :
    ∃ buf, decodeAudioData (createPcmBlob xs).data = .ok buf ∧
      buf.samples.length = xs.length ∧
      ∀ (i : Nat) (x s : ℚ), xs[i]? = some x → buf.samples[i]? = some s →
        |s - x| ≤ 2 / 32768 := by
  refine ⟨_, decode_encode xs, by simp, ?_⟩
  intro i x s hx hs
  simp only [List.getElem?_map, hx, Option.map_some', Option.some.injEq] at hs
  obtain ⟨h1, h2⟩ := h x (List.getElem?_mem hx)
  rw [← hs]
  exact quantizeSample_error h1 h2

/-- Witness for the amended C4 at the one-sample input [0]. -/
theorem codec_roundtrip_amended_witness :
    (∀ x ∈ [(0 : ℚ)], -1 ≤ x ∧ x ≤ 1) ∧
    (∃ buf, decodeAudioData (createPcmBlob [(0 : ℚ)]).data = .ok buf ∧
      buf.samples.length = ([(0 : ℚ)]).length ∧
      ∀ (i : Nat) (x s : ℚ), ([(0 : ℚ)])[i]? = some x →
        buf.samples[i]? = some s → |s - x| ≤ 2 / 32768) :=
  ⟨by intro x hx; simp at hx; simp [hx],
   codec_roundtrip_amended [(0 : ℚ)]
     (by intro x hx; simp at hx; simp [hx])⟩

/-- Counterexample to C4 as stated: the sample 65535/65536 encodes to
the int16 value 32766 and decodes to 32766/32768, an error of 3/65536,
which exceeds 1/32768 = 2/65536. -/
theorem codec_roundtrip_counterexample : ¬ claimRoundTripStated := by
  intro hcl
  obtain ⟨buf, hdec, _, herr⟩ := hcl [(65535 / 65536 : ℚ)]
    (by intro x hx
        simp at hx
        rw [hx]
        constructor <;> norm_num)
  rw [decode_encode [(65535 / 65536 : ℚ)]] at hdec
  injection hdec with hdec
  have hsamp : buf.samples = [(32766 : ℚ) / 32768] := by
    rw [← hdec]
    simp [quantize_top_sample]
  have hle := herr 0 (65535 / 65536) ((32766 : ℚ) / 32768) rfl
    (by rw [hsamp]; rfl)
  rw [abs_of_nonpos (by norm_num)] at hle
  norm_num at hle

theorem quantize_saturate_hi {x : ℚ} (h : 1 ≤ x) : quantizeSample x = 32767 := by
  unfold quantizeSample
  rw [show clamp x = 1 by
    unfold clamp; rw [min_eq_left h, max_eq_right (by norm_num)]]
  rw [if_neg (by norm_num), jsTrunc_eq, if_neg (by norm_num)]
  rw [show ((1 : ℚ) * 32767) = ((32767 : ℤ) : ℚ) by norm_num, Int.floor_intCast]

theorem quantize_saturate_lo {x : ℚ} (h : x ≤ -1) : quantizeSample x = -32768 := by
  unfold quantizeSample
  rw [show clamp x = -1 by
    unfold clamp; rw [min_eq_right (by linarith), max_eq_left h]]
  rw [if_pos (by norm_num), jsTrunc_eq, if_pos (by norm_num)]
  rw [show ((-1 : ℚ) * 32768) = ((-32768 : ℤ) : ℚ) by norm_num, Int.ceil_intCast]

theorem quantize_nonneg_eq {x : ℚ} (h0 : 0 ≤ x) (h1 : x ≤ 1) :
    quantizeSample x = ⌊x * 32767⌋ := by
  unfold quantizeSample
  rw [clamp_of_mem (by linarith) h1, if_neg (by push_neg; exact h0),
    jsTrunc_eq, if_neg (by push_neg; nlinarith)]

theorem quantize_neg_eq {x : ℚ} (h0 : -1 ≤ x) (h1 : x < 0) :
    quantizeSample x = ⌈x * 32768⌉ := by
  unfold quantizeSample
  rw [clamp_of_mem h0 (by linarith), if_pos h1, jsTrunc_eq,
    if_pos (by nlinarith)]

/-- Claim C5: `createPcmBlob` clamps every sample into [-1, 1] without
failing (saturating out-of-range inputs to 32767 / -32768), scales
negative samples by 32768 and nonnegative ones by 32767 with truncation,
packs each 16-bit value little-endian (reading consecutive byte pairs
low-byte-first recovers exactly the quantized values), base64-encodes
the byte stream, and tags it with MIME type audio/pcm;rate=16000. -/
theorem createPcmBlob_spec (xs : List ℚ) :
    (createPcmBlob xs).mimeType = "audio/pcm;rate=16000" ∧
    (createPcmBlob xs).data = btoaBytes (pcmBytes xs) ∧
    (pcmBytes xs).length = 2 * xs.length ∧
    int16OfBytesLE (pcmBytes xs) = xs.map quantizeSample ∧
    (∀ x : ℚ, -32768 ≤ quantizeSample x ∧ quantizeSample x ≤ 32767) ∧
    (∀ x : ℚ, 1 ≤ x → quantizeSample x = 32767) ∧
    (∀ x : ℚ, x ≤ -1 → quantizeSample x = -32768) ∧
    (∀ x : ℚ, 0 ≤ x → x ≤ 1 → quantizeSample x = ⌊x * 32767⌋) ∧
    (∀ x : ℚ, -1 ≤ x → x < 0 → quantizeSample x = ⌈x * 32768⌉) :=
  ⟨rfl, rfl, pcmBytes_length xs, int16OfBytesLE_pcmBytes xs,
   quantizeSample_bounds,
   fun _ h => quantize_saturate_hi h,
   fun _ h => quantize_saturate_lo h,
   fun _ h0 h1 => quantize_nonneg_eq h0 h1,
   fun _ h0 h1 => quantize_neg_eq h0 h1⟩

/-- Witness for C5: out-of-range samples 2 and -3 saturate to the
int16 boundaries. -/
theorem createPcmBlob_spec_witness :
    ((1 : ℚ) ≤ 2 ∧ quantizeSample (2 : ℚ) = 32767) ∧
    ((-3 : ℚ) ≤ -1 ∧ quantizeSample (-3 : ℚ) = -32768) :=
  ⟨⟨by norm_num, (createPcmBlob_spec []).2.2.2.2.2.1 2 (by norm_num)⟩,
   ⟨by norm_num, (createPcmBlob_spec []).2.2.2.2.2.2.1 (-3) (by norm_num)⟩⟩

/-- Claim C6: `decodeAudioData` fails with malformedBase64 whenever
`atob` rejects the chunk and with oddByteLength whenever the decoded
byte count is odd, and in either case the message handler catches the
failure and drops only that chunk: the scheduler state (pending set and
nextStartTime) is exactly what it was before. -/
theorem decode_error_skips_chunk (now : ℚ) (st : SchedState)
    (chunk : List Char) :
    (atobChars chunk = none →
      decodeAudioData chunk = .error .malformedBase64 ∧
      handleAudioChunk now chunk st = st) ∧
    (∀ bytes : List Nat, atobChars chunk = some bytes →
      bytes.length % 2 = 1 →
      decodeAudioData chunk = .error .oddByteLength ∧
      handleAudioChunk now chunk st = st) := by
  constructor
  · intro h
    have hd : decodeAudioData chunk = .error .malformedBase64 := by
      simp only [decodeAudioData, h]
    refine ⟨hd, ?_⟩
    unfold handleAudioChunk
    rw [hd]
  · intro bytes h hodd
    have hd : decodeAudioData chunk = .error .oddByteLength := by
      simp only [decodeAudioData, h]
      rw [show (bytes.length % 2 == 0) = false by rw [hodd]; rfl]
      simp
    refine ⟨hd, ?_⟩
    unfold handleAudioChunk
    rw [hd]

/-- Witness for C6 on a malformed chunk and on an odd-length chunk. -/
theorem decode_error_skips_chunk_witness :
    (atobChars ['%'] = none ∧
      decodeAudioData ['%'] = .error .malformedBase64 ∧
      handleAudioChunk 7 ['%'] { nextStartTime := 3, sources := [0] } =
        { nextStartTime := 3, sources := [0] }) ∧
    (atobChars ['A', 'A', '=', '='] = some [0] ∧ [0].length % 2 = 1 ∧
      decodeAudioData ['A', 'A', '=', '='] = .error .oddByteLength ∧
      handleAudioChunk 7 ['A', 'A', '=', '=']
          { nextStartTime := 3, sources := [0] } =
        { nextStartTime := 3, sources := [0] }) := by
  have h1 := (decode_error_skips_chunk 7 { nextStartTime := 3, sources := [0] }
    ['%']).1 (by decide)
  have h2 := (decode_error_skips_chunk 7 { nextStartTime := 3, sources := [0] }
    ['A', 'A', '=', '=']).2 [0] (by decide) rfl
  exact ⟨⟨by decide, h1.1, h1.2⟩, ⟨by decide, rfl, h2.1, h2.2⟩⟩

/-- Quantizing the zero sample yields the zero int16 value. -/
theorem quantize_zero : quantizeSample (0 : ℚ) = 0 := by
  unfold quantizeSample
  rw [clamp_of_mem (by norm_num) (by norm_num), if_neg (by norm_num),
    jsTrunc_eq, if_neg (by norm_num)]
  norm_num

/-- Decoding the encoded one-sample stream [0] gives a 24000 Hz mono
buffer with the single sample 0. -/
theorem decode_zero_chunk :
    decodeAudioData (createPcmBlob [(0 : ℚ)]).data =
      .ok { numChannels := 1, sampleRate := 24000, samples := [0] } := by
  rw [decode_encode]
  simp [quantize_zero]

/-- Counterexample to C9 as stated: a decoded inbound chunk has sample
rate 24000, not 16000 — the claim swaps the two directions. -/
theorem wire_format_counterexample : ¬ claimWireFormatStated := by
  intro h
  have h1 := h.1 (createPcmBlob [(0 : ℚ)]).data
    { numChannels := 1, sampleRate := 24000, samples := [0] } decode_zero_chunk
  simp at h1

/-- Claim C9 (amended): audio received from the service is decoded as
mono PCM at 24000 Hz, audio sent to the service is encoded base64
little-endian 16-bit PCM tagged audio/pcm;rate=16000, and `startSession`
creates the capture context at 16000 Hz and the playback context at
24000 Hz. -/
theorem wire_format_amended :
    (∀ (chunk : List Char) (buf : AudioBuffer),
      decodeAudioData chunk = .ok buf →
      buf.sampleRate = 24000 ∧ buf.numChannels = 1) ∧
    (∀ xs : List ℚ, (createPcmBlob xs).mimeType = "audio/pcm;rate=16000") ∧
    (∀ st : ManagerState,
      ResEvent.inputCtxCreated (stopSession st).1.fresh 16000 ∈
        (startSession true st).2 ∧
      ResEvent.outputCtxCreated ((stopSession st).1.fresh + 1) 24000 ∈
        (startSession true st).2) := by
  refine ⟨?_, fun _ => rfl, ?_⟩
  · intro chunk buf h
    cases hA : atobChars chunk with
    | none =>
        simp only [decodeAudioData, hA] at h
        exact absurd h (by simp)
    | some bytes =>
        simp only [decodeAudioData, hA] at h
        by_cases he : (bytes.length % 2 == 0) = true
        · rw [if_pos he] at h
          injection h with h
          rw [← h]
          exact ⟨rfl, rfl⟩
        · rw [if_neg he] at h
          exact absurd h (by simp)
  · intro st
    constructor <;> simp [startSession]

/-- Witness for the amended C9 on a concrete decoded chunk. -/
theorem wire_format_amended_witness :
    decodeAudioData (createPcmBlob [(0 : ℚ)]).data =
      .ok { numChannels := 1, sampleRate := 24000, samples := [0] } ∧
    (AudioBuffer.sampleRate
      { numChannels := 1, sampleRate := 24000, samples := [0] } = 24000 ∧
     AudioBuffer.numChannels
      { numChannels := 1, sampleRate := 24000, samples := [0] } = 1) :=
  ⟨decode_zero_chunk,
   wire_format_amended.1 (createPcmBlob [(0 : ℚ)]).data
     { numChannels := 1, sampleRate := 24000, samples := [0] }
     decode_zero_chunk⟩

/-- Claim C7: starting a session while one is open first closes the old
session and releases its resources, after which exactly one (fresh)
session is open with a fresh microphone acquisition, the scheduler is
reset, the old microphone (when present) is released and no longer
held, and at no point along the event trace are two microphone
acquisitions alive simultaneously. -/
theorem startSession_single_active (st : ManagerState) (oldSid : Nat)
    (hwf : WFState st) (hold : st.activeSessionPromise = some oldSid) :
    ∃ st', (startSession true st).1 = .ok st' ∧
      (∃ sid, st'.activeSessionPromise = some sid ∧ sid ≠ oldSid) ∧
      st'.mediaStream.isSome = true ∧
      st'.sched = { nextStartTime := 0, sources := [] } ∧
      ResEvent.sessionClosed oldSid ∈ (startSession true st).2 ∧
      (∀ m : Nat, st.mediaStream = some m →
        ResEvent.micReleased m ∈ (startSession true st).2 ∧
        st'.mediaStream ≠ some m) ∧
      micSafe (micCount st) ((startSession true st).2) = true := by
  obtain ⟨hwf1, hwf2⟩ := hwf
  have hsid : oldSid < st.fresh := hwf1 oldSid (by rw [hold]; rfl)
  simp only [startSession, stopSession, hold, cleanup, if_true]
  refine ⟨_, rfl, ⟨st.fresh + 3, rfl, by simp; omega⟩, rfl, rfl, ?_, ?_, ?_⟩
  · simp
  · intro m hm
    have hmf : m < st.fresh := hwf2 m (by rw [hm]; rfl)
    refine ⟨?_, ?_⟩
    · simp [hm]
    · simp
      omega
  · rcases st with ⟨a, ic, oc, ms, pr, so, sc, fr⟩
    cases ms <;> cases pr <;> cases so <;> cases ic <;> cases oc <;>
      simp [micCount, micSafe, micDelta]

/-- Witness for C7 on a concrete manager state holding an open session
and a microphone. -/
theorem startSession_single_active_witness :
    WFState { activeSessionPromise := some 0, inputAudioContext := some 1,
              outputAudioContext := some 2, mediaStream := some 3,
              processor := none, source := none,
              sched := { nextStartTime := 5, sources := [7] },
              fresh := 4 } ∧
    ({ activeSessionPromise := some 0, inputAudioContext := some 1,
       outputAudioContext := some 2, mediaStream := some 3,
       processor := none, source := none,
       sched := { nextStartTime := 5, sources := [7] },
       fresh := 4 } : ManagerState).activeSessionPromise = some 0 ∧
    ∃ st', (startSession true
      { activeSessionPromise := some 0, inputAudioContext := some 1,
        outputAudioContext := some 2, mediaStream := some 3,
        processor := none, source := none,
        sched := { nextStartTime := 5, sources := [7] },
        fresh := 4 }).1 = .ok st' ∧
      (∃ sid, st'.activeSessionPromise = some sid ∧ sid ≠ 0) ∧
      micSafe (micCount
        { activeSessionPromise := some 0, inputAudioContext := some 1,
          outputAudioContext := some 2, mediaStream := some 3,
          processor := none, source := none,
          sched := { nextStartTime := 5, sources := [7] },
          fresh := 4 }) ((startSession true
        { activeSessionPromise := some 0, inputAudioContext := some 1,
          outputAudioContext := some 2, mediaStream := some 3,
          processor := none, source := none,
          sched := { nextStartTime := 5, sources := [7] },
          fresh := 4 }).2) = true := by
  have hwf : WFState
      { activeSessionPromise := some 0, inputAudioContext := some 1,
        outputAudioContext := some 2, mediaStream := some 3,
        processor := none, source := none,
        sched := { nextStartTime := 5, sources := [7] }, fresh := 4 } := by
    constructor <;> intro i hi <;> simp [Option.mem_def] at hi <;>
      subst hi <;> decide
  obtain ⟨st', h1, h2, _, _, _, _, h7⟩ :=
    startSession_single_active _ 0 hwf rfl
  exact ⟨hwf, rfl, st', h1, h2, h7⟩

theorem invocationsOf_cons_other (e : LoopEvent) (tr : List LoopEvent)
    (h : ∀ k : Nat, e ≠ LoopEvent.handlerInvoked k) :
    invocationsOf (e :: tr) = invocationsOf tr := by
  unfold invocationsOf
  rw [List.filterMap_cons]
  cases e with
  | handlerInvoked k => exact absurd rfl (h k)
  | audioScheduled k => rfl
  | toolResponseSent k => rfl

theorem invocationsOf_append (s t : List LoopEvent) :
    invocationsOf (s ++ t) = invocationsOf s ++ invocationsOf t := by
  unfold invocationsOf
  rw [List.filterMap_append]

theorem invocationsOf_responses (l : List (Nat × Nat)) :
    invocationsOf (l.map (fun p => LoopEvent.toolResponseSent p.1)) = [] := by
  induction l with
  | nil => rfl
  | cons p l ih =>
      rw [List.map_cons, invocationsOf_cons_other _ _ (by intro k h; cases h), ih]

theorem invocationsOf_runLoop (msgs : List InMsg) :
    ∀ (i : Nat) (pend : List (Nat × Nat)),
      invocationsOf (runLoop i pend msgs) =
        (List.range msgs.length).map (fun k => i + k) := by
  induction msgs with
  | nil =>
      intro i pend
      simp [runLoop, invocationsOf_responses]
  | cons m rest ih =>
      intro i pend
      show invocationsOf (LoopEvent.handlerInvoked i :: _) = _
      unfold invocationsOf
      rw [List.filterMap_cons]
      show i :: invocationsOf (_ ++ runLoop (i + 1) _ rest) = _
      rw [invocationsOf_append]
      have hsync : ∀ (sp : List LoopEvent × List (Nat × Nat)),
          sp = (match m with
            | InMsg.audioMsg => ([LoopEvent.audioScheduled i], pend)
            | InMsg.toolCallMsg 0 => ([LoopEvent.toolResponseSent i], pend)
            | InMsg.toolCallMsg (Nat.succ d) =>
                ([], pend ++ [(i, Nat.succ d)])) →
          invocationsOf (sp.1 ++ (stepPend sp.2).1) = [] := by
        intro sp hsp
        rw [invocationsOf_append]
        have h2 : invocationsOf (stepPend sp.2).1 = [] := by
          unfold stepPend
          exact invocationsOf_responses _
        rw [h2]
        cases m with
        | audioMsg =>
            rw [hsp]
            rfl
        | toolCallMsg k =>
            cases k with
            | zero => rw [hsp]; rfl
            | succ d => rw [hsp]; rfl
      rw [hsync _ rfl, ih (i + 1)]
      rw [List.length_cons, List.range_succ_eq_map, List.map_cons, List.map_map]
      simp only [List.nil_append, Nat.add_zero]
      congr 1
      apply List.map_congr_left
      intro a _
      simp [Function.comp]
      omega

theorem runLoop_sequential (msgs : List InMsg) (h : allSettled msgs = true) :
    ∀ i : Nat, runLoop i [] msgs = specSequentialTrace i msgs := by
  induction msgs with
  | nil => intro i; rfl
  | cons m rest ih =>
      intro i
      have hrest : allSettled rest = true := by
        unfold allSettled at h ⊢
        rw [List.all_cons] at h
        exact (Bool.and_eq_true_iff.mp h).2
      cases m with
      | audioMsg =>
          show LoopEvent.handlerInvoked i ::
            ([LoopEvent.audioScheduled i] ++ (stepPend []).1) ++
            runLoop (i + 1) (stepPend []).2 rest = _
          rw [show stepPend [] = ([], []) from rfl]
          rw [ih hrest (i + 1)]
          rfl
      | toolCallMsg k =>
          cases k with
          | zero =>
              show LoopEvent.handlerInvoked i ::
                ([LoopEvent.toolResponseSent i] ++ (stepPend []).1) ++
                runLoop (i + 1) (stepPend []).2 rest = _
              rw [show stepPend [] = ([], []) from rfl]
              rw [ih hrest (i + 1)]
              rfl
          | succ d =>
              exfalso
              unfold allSettled at h
              rw [List.all_cons] at h
              exact absurd (Bool.and_eq_true_iff.mp h).1 (by simp)

/-- Claim C8 (amended): handler invocations do happen strictly in
arrival order, and when every tool callback is already settled at its
await, the whole run is sequential: each message's response send or
audio scheduling is issued before the next handler is invoked; but a
pending callback lets later messages be processed first. -/
theorem message_ordering_amended (msgs : List InMsg) :
    invocationsOf (runLoop 0 [] msgs) = List.range msgs.length ∧
    (allSettled msgs = true → runLoop 0 [] msgs = specSequentialTrace 0 msgs) := by
  constructor
  · rw [invocationsOf_runLoop msgs 0 []]
    simp
  · exact fun h => runLoop_sequential msgs h 0

/-- Counterexample to C8 as stated: with a pending tool callback
(message 0) followed by an audio message, the trace invokes handler 1
and schedules its audio before the response of message 0 is sent —
handling is pipelined at await points. -/
theorem message_ordering_counterexample :
    ¬ claimRespondBeforeNextStated ∧
    beforeIn (runLoop 0 [] [InMsg.toolCallMsg 2, InMsg.audioMsg])
      (LoopEvent.audioScheduled 1) (LoopEvent.toolResponseSent 0) = true := by
  constructor
  · intro h
    have h2 := h [InMsg.toolCallMsg 2, InMsg.audioMsg] 0 2 rfl (by decide)
    revert h2
    decide
  · decide

/-- Witness for the amended C8 on a concrete all-settled run. -/
theorem message_ordering_amended_witness :
    allSettled [InMsg.toolCallMsg 0, InMsg.audioMsg] = true ∧
    runLoop 0 [] [InMsg.toolCallMsg 0, InMsg.audioMsg] =
      specSequentialTrace 0 [InMsg.toolCallMsg 0, InMsg.audioMsg] :=
  ⟨by decide, (message_ordering_amended [InMsg.toolCallMsg 0, InMsg.audioMsg]).2
    (by decide)⟩

end Process
